import Mathlib

set_option maxHeartbeats 1000000

/- Shallow embedding of the PanopticDatabasesMerger plugin
   (src/utils.py and src/main.py): property-bag access, the validation
   gate, the metadata merge executor, and mapping-rule normalization. -/

/-- A value stored in a record's property bag: the engine only ever stores
strings and booleans.  Python truthiness is modelled by pvTruthy. -/
inductive PValue where
  | str (s : String)
  | bool (b : Bool)
deriving DecidableEq

/-- A property bag: insertion-ordered string-keyed dictionary modelling a
Python dict (lookup returns the first matching key; assignment replaces in
place or appends). -/
abbrev Bag := List (String × PValue)

def bagGet : Bag → String → Option PValue
  | [], _ => none
  | (k1, v) :: rest, k => if k1 = k then some v else bagGet rest k

def bagSet : Bag → String → PValue → Bag
  | [], k, v => [(k, v)]
  | (k1, v1) :: rest, k, v =>
    if k1 = k then (k1, v) :: rest else (k1, v1) :: bagSet rest k v

def pvTruthy : PValue → Bool
  | .str s => !s.isEmpty
  | .bool b => b

def optTruthy : Option PValue → Bool
  | none => false
  | some v => pvTruthy v

/-- Python str() of a bag value, as used by the merge f-string. -/
def pvToStr : PValue → String
  | .str s => s
  | .bool b => if b then "True" else "False"

/-- A Panoptic instance as seen by the plugin: it may or may not expose each
of the three candidate metadata attributes, and an exposed attribute may
hold null (None) instead of a dict. -/
structure Instance where
  properties : Option (Option Bag)
  props : Option (Option Bag)
  metadata : Option (Option Bag)
deriving DecidableEq

/-- utils.get_properties: probe properties, props, metadata in that order;
use the first present attribute, initializing a null value to an empty dict
in place; if none is present create `properties`.  Returns the bag together
with the (possibly mutated) instance. -/
def get_properties (i : Instance) : Bag × Instance :=
  match i.properties with
  | some (some b) => (b, i)
  | some none => ([], { i with properties := some (some []) })
  | none =>
    match i.props with
    | some (some b) => (b, i)
    | some none => ([], { i with props := some (some []) })
    | none =>
      match i.metadata with
      | some (some b) => (b, i)
      | some none => ([], { i with metadata := some (some []) })
      | none => ([], { i with properties := some (some []) })

def getBag (i : Instance) : Bag := (get_properties i).1

def normalizeInst (i : Instance) : Instance := (get_properties i).2

/-- Writing the bag back through the attribute get_properties resolves to:
mutating the returned dict mutates that attribute's value. -/
def writeResolved (i : Instance) (b : Bag) : Instance :=
  match i.properties with
  | some _ => { i with properties := some (some b) }
  | none =>
    match i.props with
    | some _ => { i with props := some (some b) }
    | none =>
      match i.metadata with
      | some _ => { i with metadata := some (some b) }
      | none => { i with properties := some (some b) }

/-- Effect on the instance of `props[k] = v` after `props =
get_properties(inst)`. -/
def setBagKey (i : Instance) (k : String) (v : PValue) : Instance :=
  writeResolved (normalizeInst i) (bagSet (getBag i) k v)

/-- utils.ensure_merge_source_present: if the merge-source field is missing
or falsy, store the placeholder label; return the resulting value and
mutated instance. -/
def ensure_merge_source_present (i : Instance) (msf ml : String) :
    PValue × Instance :=
  match bagGet (getBag i) msf with
  | some v =>
    if pvTruthy v then (v, normalizeInst i)
    else (.str ml, setBagKey i msf (.str ml))
  | none => (.str ml, setBagKey i msf (.str ml))

def ensureStep (msf ml : String) (i : Instance) : Instance :=
  (ensure_merge_source_present i msf ml).2

/-- utils.MergeMapping. -/
structure MergeMapping where
  sources : List String
  destination : String
deriving DecidableEq

/-- utils._is_validated, together with the get_properties side effect it has
on the instances it visits (it stops at the first truthy flag). -/
def is_validated (flag : String) : List Instance → Bool × List Instance
  | [] => (false, [])
  | i :: rest =>
    if optTruthy (bagGet (getBag i) flag) then (true, normalizeInst i :: rest)
    else ((is_validated flag rest).1, normalizeInst i :: (is_validated flag rest).2)

/-- `props.get(merge_source_field, missing_label) or missing_label`,
stringified by the f-string. -/
def sourceLabel (b : Bag) (msf ml : String) : String :=
  match bagGet b msf with
  | some v => if pvTruthy v then pvToStr v else ml
  | none => ml

/-- Contributions of one record to a mapping rule: for each source field
with a truthy value, the string `"<value> [<label>]"`. -/
def contribsOf (b : Bag) (lbl : String) : List String → List String
  | [] => []
  | f :: fs =>
    match bagGet b f with
    | some v =>
      if pvTruthy v then (pvToStr v ++ " [" ++ lbl ++ "]") :: contribsOf b lbl fs
      else contribsOf b lbl fs
    | none => contribsOf b lbl fs

/-- The merged_values list of one mapping rule, read from all records in
group order before anything is written. -/
def contribList (msf ml : String) (m : MergeMapping) : List Instance → List String
  | [] => []
  | i :: rest =>
    contribsOf (getBag i) (sourceLabel (getBag i) msf ml) m.sources
      ++ contribList msf ml m rest

def mergedValueOf (insts : List Instance) (m : MergeMapping) (msf ml : String) : String :=
  String.intercalate ";" (contribList msf ml m insts)

/-- One iteration of the mapping loop: read every record (get_properties
normalizes each), then write the joined value to the destination field of
every record. -/
def applyMapping (msf ml : String) (insts : List Instance) (m : MergeMapping) :
    List Instance :=
  let mv := mergedValueOf insts m msf ml
  (insts.map normalizeInst).map fun i => setBagKey i m.destination (.str mv)

def runRules (msf ml : String) (maps : List MergeMapping) (insts : List Instance) :
    List Instance :=
  maps.foldl (applyMapping msf ml) insts

/-- utils.merge_metadata_for_instances: no-op on an empty group, then the
validation gate, then the empty-mappings check, then the ensure pass, then
the mapping loop. -/
def merge_metadata_for_instances (insts : List Instance) (maps : List MergeMapping)
    (msf flag ml : String) : List Instance :=
  match insts with
  | [] => []
  | _ :: _ =>
    if (is_validated flag insts).1 = false then (is_validated flag insts).2
    else if maps.isEmpty then (is_validated flag insts).2
    else runRules msf ml maps ((is_validated flag insts).2.map (ensureStep msf ml))

/-- utils.mark_cluster_validated. -/
def mark_cluster_validated (i : Instance) (flag : String) (v : Bool) : Instance :=
  setBagKey i flag (.bool v)

/-- The bag-level effect of ensure_merge_source_present. -/
def ensureBag (b : Bag) (msf ml : String) : Bag :=
  match bagGet b msf with
  | some v => if pvTruthy v then b else bagSet b msf (.str ml)
  | none => bagSet b msf (.str ml)

/-- Observation of a group: each record's value at one key, in group
order. -/
def obs (l : List Instance) (k : String) : List (Option PValue) :=
  l.map fun i => bagGet (getBag i) k

/- Mapping-rule configuration and normalization (src/main.py). -/

/-- Per-slot sources parsing: split on commas, strip, drop empties. -/
def splitSources (s : String) : List String :=
  ((s.splitOn ",").map String.trim).filter fun t => !t.isEmpty

/-- Rules obtained from the 25 per-slot field pairs, in slot order: a slot
contributes iff both strings are non-empty and the split source list is
non-empty. -/
def slotMappings : List (String × String) → List MergeMapping
  | [] => []
  | (src, dst) :: rest =>
    if !src.isEmpty && !dst.isEmpty then
      let sources := splitSources src
      if !sources.isEmpty then ⟨sources, dst⟩ :: slotMappings rest
      else slotMappings rest
    else slotMappings rest

def ruleKey (m : MergeMapping) : List String × String := (m.sources, m.destination)

/-- The dedup-by-(sources, destination)-key loop of update_params, with its
`seen` set modelled as a list of keys. -/
def dedupMappings (seen : List (List String × String)) :
    List MergeMapping → List MergeMapping
  | [] => []
  | m :: rest =>
    if ruleKey m ∈ seen then dedupMappings seen rest
    else m :: dedupMappings (ruleKey m :: seen) rest

/-- update_params canonicalization: JSON-parsed rules first, then valid
slot rules, then deduplication keeping first occurrences.  `parsed` is the
content of merge_mappings_raw after json.loads. -/
def canonicalMappings (parsed : List MergeMapping) (slots : List (String × String)) :
    List MergeMapping :=
  dedupMappings [] (parsed ++ slotMappings slots)

/-- The rule list built by PanopticDatabasesMerger.__init__: JSON-parsed
rules then slot rules, with no deduplication step. -/
def initMappings (parsed : List MergeMapping) (slots : List (String × String)) :
    List MergeMapping :=
  parsed ++ slotMappings slots

def slotOfRule (m : MergeMapping) : String × String :=
  (String.intercalate "," m.sources, m.destination)

/-- The 25 per-slot pairs written back by update_params: slot i is filled
from canonical rule i when it exists, else cleared to empty strings. -/
def slotsOut (cs : List MergeMapping) : List (String × String) :=
  (List.range 25).map fun j =>
    match cs[j]? with
    | some m => slotOfRule m
    | none => ("", "")

/-- The list serialized back into merge_mappings_raw by update_params: one
(sources, destination) pair per canonical rule, all of them. -/
def serializedMappings (cs : List MergeMapping) : List (List String × String) :=
  cs.map fun m => (m.sources, m.destination)

/- Basic lemmas about bags and instances. -/

theorem bagGet_bagSet_same (b : Bag) (k : String) (v : PValue) :
    bagGet (bagSet b k v) k = some v := by
  induction b with
  | nil => simp [bagGet, bagSet]
  | cons p rest ih =>
    obtain ⟨k1, v1⟩ := p
    by_cases h : k1 = k <;> simp [bagGet, bagSet, h, ih]

theorem bagGet_bagSet_ne (b : Bag) (k k2 : String) (v : PValue) (h : k2 ≠ k) :
    bagGet (bagSet b k v) k2 = bagGet b k2 := by
  have h2 : ¬k = k2 := fun hh => h hh.symm
  induction b with
  | nil => simp [bagGet, bagSet, h2]
  | cons p rest ih =>
    obtain ⟨k1, v1⟩ := p
    by_cases h1 : k1 = k
    · subst h1
      simp [bagGet, bagSet, h2]
    · simp [bagGet, bagSet, h1, ih]

theorem bagSet_self (b : Bag) (k : String) (v : PValue) (h : bagGet b k = some v) :
    bagSet b k v = b := by
  induction b with
  | nil => simp [bagGet] at h
  | cons p rest ih =>
    obtain ⟨k1, v1⟩ := p
    by_cases h1 : k1 = k
    · subst h1
      simp [bagGet] at h
      simp [bagSet, h]
    · simp [bagGet, h1] at h
      simp [bagSet, h1, ih h]

theorem getBag_normalizeInst (i : Instance) : getBag (normalizeInst i) = getBag i := by
  obtain ⟨p, q, r⟩ := i
  rcases p with _ | _ | b <;> rcases q with _ | _ | b2 <;> rcases r with _ | _ | b3 <;>
    rfl

theorem normalizeInst_normalizeInst (i : Instance) :
    normalizeInst (normalizeInst i) = normalizeInst i := by
  obtain ⟨p, q, r⟩ := i
  rcases p with _ | _ | b <;> rcases q with _ | _ | b2 <;> rcases r with _ | _ | b3 <;>
    rfl

theorem getBag_setBagKey (i : Instance) (k : String) (v : PValue) :
    getBag (setBagKey i k v) = bagSet (getBag i) k v := by
  obtain ⟨p, q, r⟩ := i
  rcases p with _ | _ | b <;> rcases q with _ | _ | b2 <;> rcases r with _ | _ | b3 <;>
    rfl

theorem normalizeInst_setBagKey (i : Instance) (k : String) (v : PValue) :
    normalizeInst (setBagKey i k v) = setBagKey i k v := by
  obtain ⟨p, q, r⟩ := i
  rcases p with _ | _ | b <;> rcases q with _ | _ | b2 <;> rcases r with _ | _ | b3 <;>
    rfl

theorem setBagKey_normalizeInst (i : Instance) (k : String) (v : PValue) :
    setBagKey (normalizeInst i) k v = setBagKey i k v := by
  obtain ⟨p, q, r⟩ := i
  rcases p with _ | _ | b <;> rcases q with _ | _ | b2 <;> rcases r with _ | _ | b3 <;>
    rfl

theorem writeResolved_getBag (i : Instance) :
    writeResolved (normalizeInst i) (getBag i) = normalizeInst i := by
  obtain ⟨p, q, r⟩ := i
  rcases p with _ | _ | b <;> rcases q with _ | _ | b2 <;> rcases r with _ | _ | b3 <;>
    rfl

theorem setBagKey_self (i : Instance) (k : String) (v : PValue)
    (h : bagGet (getBag i) k = some v) : setBagKey i k v = normalizeInst i := by
  unfold setBagKey
  rw [bagSet_self _ _ _ h, writeResolved_getBag]

/- The bag-level behaviour of the ensure pass. -/

theorem ensureStep_bag (msf ml : String) (i : Instance) :
    getBag (ensureStep msf ml i) = ensureBag (getBag i) msf ml := by
  unfold ensureStep ensure_merge_source_present ensureBag
  cases h : bagGet (getBag i) msf with
  | none => simp [getBag_setBagKey]
  | some v =>
    by_cases ht : pvTruthy v <;> simp [ht, getBag_normalizeInst, getBag_setBagKey]

theorem bagGet_ensureBag_ne (b : Bag) (msf ml k : String) (h : k ≠ msf) :
    bagGet (ensureBag b msf ml) k = bagGet b k := by
  unfold ensureBag
  cases hb : bagGet b msf with
  | none => rw [bagGet_bagSet_ne _ _ _ _ h]
  | some v =>
    by_cases ht : pvTruthy v <;> simp [ht, bagGet_bagSet_ne _ _ _ _ h]

/-- A merge-source value is "ensured" when it is truthy or the stored
missing label. -/
def ensuredVal (ov : Option PValue) (ml : String) : Prop :=
  optTruthy ov = true ∨ ov = some (.str ml)

theorem ensureBag_ensured (b : Bag) (msf ml : String) :
    ensuredVal (bagGet (ensureBag b msf ml) msf) ml := by
  unfold ensureBag ensuredVal
  cases hb : bagGet b msf with
  | none => right; simp [bagGet_bagSet_same]
  | some v =>
    by_cases ht : pvTruthy v
    · left; simp [ht, hb, optTruthy]
    · right; simp [ht, bagGet_bagSet_same]

theorem ensureBag_of_ensured (b : Bag) (msf ml : String)
    (h : ensuredVal (bagGet b msf) ml) : ensureBag b msf ml = b := by
  unfold ensureBag
  cases hb : bagGet b msf with
  | none => rcases h with h | h <;> simp [hb, optTruthy] at h
  | some v =>
    by_cases ht : pvTruthy v
    · simp [ht]
    · rcases h with h | h
      · rw [hb] at h; simp [optTruthy, ht] at h
      · rw [hb] at h
        cases h
        simp [ht, bagSet_self _ _ _ hb]

/- The validation scan. -/

theorem is_validated_fst (flag : String) (l : List Instance) :
    (is_validated flag l).1 = l.any fun i => optTruthy (bagGet (getBag i) flag) := by
  induction l with
  | nil => rfl
  | cons i rest ih =>
    by_cases h : optTruthy (bagGet (getBag i) flag) <;>
      simp [is_validated, h, ih]

theorem is_validated_snd_map_getBag (flag : String) (l : List Instance) :
    ((is_validated flag l).2).map getBag = l.map getBag := by
  induction l with
  | nil => rfl
  | cons i rest ih =>
    by_cases h : optTruthy (bagGet (getBag i) flag) <;>
      simp [is_validated, h, ih, getBag_normalizeInst]

theorem obs_is_validated (flag k : String) (l : List Instance) :
    obs ((is_validated flag l).2) k = obs l k := by
  induction l with
  | nil => rfl
  | cons i rest ih =>
    by_cases h : optTruthy (bagGet (getBag i) flag)
    · simp [is_validated, h, obs, getBag_normalizeInst]
    · simp [is_validated, h, obs, getBag_normalizeInst]
      simpa [obs] using ih

theorem is_validated_snd_length (flag : String) (l : List Instance) :
    ((is_validated flag l).2).length = l.length := by
  induction l with
  | nil => rfl
  | cons i rest ih =>
    by_cases h : optTruthy (bagGet (getBag i) flag) <;>
      simp [is_validated, h, ih]

/- The mapping loop. -/

theorem applyMapping_eq_map (msf ml : String) (insts : List Instance) (m : MergeMapping) :
    applyMapping msf ml insts m
      = insts.map fun i =>
          setBagKey i m.destination (.str (mergedValueOf insts m msf ml)) := by
  simp [applyMapping, List.map_map, Function.comp, setBagKey_normalizeInst]

theorem applyMapping_length (msf ml : String) (insts : List Instance) (m : MergeMapping) :
    (applyMapping msf ml insts m).length = insts.length := by
  simp [applyMapping_eq_map]

theorem obs_applyMapping_ne (msf ml k : String) (insts : List Instance)
    (m : MergeMapping) (h : k ≠ m.destination) :
    obs (applyMapping msf ml insts m) k = obs insts k := by
  simp [obs, applyMapping_eq_map, List.map_map, Function.comp, getBag_setBagKey,
    bagGet_bagSet_ne _ _ _ _ h]

theorem map_const_replicate {α β : Type} (f : α → β) (c : β) (h : ∀ a, f a = c)
    (l : List α) : l.map f = List.replicate l.length c := by
  induction l with
  | nil => rfl
  | cons a rest ih => simp [h, List.replicate_succ, ih]

theorem obs_applyMapping_dest (msf ml : String) (insts : List Instance)
    (m : MergeMapping) :
    obs (applyMapping msf ml insts m) m.destination
      = List.replicate insts.length (some (.str (mergedValueOf insts m msf ml))) := by
  rw [applyMapping_eq_map]
  simp only [obs, List.map_map]
  rw [map_const_replicate _ (some (.str (mergedValueOf insts m msf ml))) fun i => by
    simp [Function.comp, getBag_setBagKey, bagGet_bagSet_same]]

theorem runRules_length (msf ml : String) (maps : List MergeMapping)
    (insts : List Instance) :
    (runRules msf ml maps insts).length = insts.length := by
  induction maps generalizing insts with
  | nil => rfl
  | cons m rest ih => simp [runRules, List.foldl_cons] at ih ⊢; rw [ih, applyMapping_length]

theorem obs_runRules_not_dest (msf ml k : String) (maps : List MergeMapping)
    (insts : List Instance) (h : ∀ m ∈ maps, k ≠ m.destination) :
    obs (runRules msf ml maps insts) k = obs insts k := by
  induction maps generalizing insts with
  | nil => rfl
  | cons m rest ih =>
    simp only [runRules, List.foldl_cons] at ih ⊢
    rw [ih _ fun m2 hm2 => h m2 (List.mem_cons_of_mem _ hm2),
      obs_applyMapping_ne _ _ _ _ _ (h m (List.mem_cons_self _ _))]

/- The ensure pass over a group. -/

theorem obs_map_ensureStep_ne (msf ml k : String) (l : List Instance) (h : k ≠ msf) :
    obs (l.map (ensureStep msf ml)) k = obs l k := by
  simp [obs, List.map_map, Function.comp, ensureStep_bag,
    bagGet_ensureBag_ne _ _ _ _ h]

theorem obs_map_ensureStep_msf (msf ml : String) (l : List Instance) :
    ∀ x ∈ obs (l.map (ensureStep msf ml)) msf, ensuredVal x ml := by
  intro x hx
  simp only [obs, List.map_map, Function.comp, List.mem_map] at hx
  obtain ⟨i, _, rfl⟩ := hx
  rw [ensureStep_bag]
  exact ensureBag_ensured _ _ _

theorem obs_map_ensureStep_of_ensured (msf ml k : String) (l : List Instance)
    (h : ∀ i ∈ l, ensuredVal (bagGet (getBag i) msf) ml) :
    obs (l.map (ensureStep msf ml)) k = obs l k := by
  induction l with
  | nil => rfl
  | cons i rest ih =>
    simp only [List.map_cons, obs, List.map]
    rw [ensureStep_bag, ensureBag_of_ensured _ _ _ (h i (List.mem_cons_self _ _))]
    have := ih fun j hj => h j (List.mem_cons_of_mem _ hj)
    simp only [obs] at this
    rw [this]

/-- Transfer of the ensured-value property along an observation equality. -/
theorem ensured_of_obs_eq (msf ml : String) (t u : List Instance)
    (h : obs u msf = obs t msf)
    (ht : ∀ x ∈ obs t msf, ensuredVal x ml) :
    ∀ i ∈ u, ensuredVal (bagGet (getBag i) msf) ml := by
  intro i hi
  apply ht
  rw [← h]
  exact List.mem_map_of_mem _ hi

/- Unfolding merge_metadata_for_instances by phase. -/

theorem merge_eq_of_not_validated (insts : List Instance) (maps : List MergeMapping)
    (msf flag ml : String) (hne : insts ≠ [])
    (hv : (is_validated flag insts).1 = false) :
    merge_metadata_for_instances insts maps msf flag ml = (is_validated flag insts).2 := by
  cases insts with
  | nil => exact absurd rfl hne
  | cons i rest => simp [merge_metadata_for_instances, hv]

theorem merge_eq_runRules (insts : List Instance) (maps : List MergeMapping)
    (msf flag ml : String) (hne : insts ≠ [])
    (hv : (is_validated flag insts).1 = true) (hm : maps ≠ []) :
    merge_metadata_for_instances insts maps msf flag ml
      = runRules msf ml maps ((is_validated flag insts).2.map (ensureStep msf ml)) := by
  cases insts with
  | nil => exact absurd rfl hne
  | cons i rest =>
    cases maps with
    | nil => exact absurd rfl hm
    | cons m ms => simp [merge_metadata_for_instances, hv]

/-- C1: for a group in which no record has a truthy value at the
validated-flag field, merge_metadata_for_instances writes nothing: every
record's property bag is left unchanged, whatever the mappings, source
field, flag field and missing label are. -/
theorem merge_unvalidated_preserves_bags (insts : List Instance)
    (maps : List MergeMapping) (msf flag ml : String)
    (h : ∀ i ∈ insts, optTruthy (bagGet (getBag i) flag) = false) :
    (merge_metadata_for_instances insts maps msf flag ml).map getBag
      = insts.map getBag := by
  cases insts with
  | nil => rfl
  | cons i rest =>
    have hv : (is_validated flag (i :: rest)).1 = false := by
      rw [is_validated_fst]
      simp only [List.any_eq_false]
      intro x hx
      simp [h x hx]
    rw [merge_eq_of_not_validated _ _ _ _ _ (by simp) hv, is_validated_snd_map_getBag]

/-- Witness for C1 at a concrete unvalidated group. -/
theorem merge_unvalidated_preserves_bags_witness :
    (merge_metadata_for_instances
        [⟨some (some [("Title", PValue.str "Foo")]), none, none⟩]
        [⟨["Title"], "D"⟩] "S" "F" "M").map getBag
      = [⟨some (some [("Title", PValue.str "Foo")]), none, none⟩].map getBag :=
  merge_unvalidated_preserves_bags
    [⟨some (some [("Title", PValue.str "Foo")]), none, none⟩]
    [⟨["Title"], "D"⟩] "S" "F" "M" (by decide)

/-- Pointwise form of the ensure step. -/
theorem ensureStep_eq (msf ml : String) (i : Instance) :
    ensureStep msf ml i
      = if optTruthy (bagGet (getBag i) msf) = true then normalizeInst i
        else setBagKey i msf (.str ml) := by
  unfold ensureStep ensure_merge_source_present
  cases hb : bagGet (getBag i) msf with
  | none => simp [optTruthy]
  | some v =>
    by_cases ht : pvTruthy v <;> simp [optTruthy, ht]

theorem ensureStep_idem (msf ml : String) (i : Instance) :
    ensureStep msf ml (ensureStep msf ml i) = ensureStep msf ml i := by
  rw [ensureStep_eq msf ml i]
  by_cases h : optTruthy (bagGet (getBag i) msf) = true
  · rw [if_pos h, ensureStep_eq, getBag_normalizeInst]
    rw [if_pos h, normalizeInst_normalizeInst]
  · rw [if_neg h, ensureStep_eq, getBag_setBagKey, bagGet_bagSet_same]
    by_cases hml : pvTruthy (.str ml) = true
    · rw [if_pos (by simpa [optTruthy] using hml), normalizeInst_setBagKey]
    · rw [if_neg (by simpa [optTruthy] using hml),
        setBagKey_self _ _ _ (by rw [getBag_setBagKey, bagGet_bagSet_same]),
        normalizeInst_setBagKey]

/-- C6: ensure_merge_source_present is idempotent — calling it twice with
the same arguments yields the same record state as calling it once — and a
call never changes the bag when the source field already holds a truthy
value. -/
theorem ensure_merge_source_present_idempotent (i : Instance) (msf ml : String) :
    (ensure_merge_source_present
        (ensure_merge_source_present i msf ml).2 msf ml).2
      = (ensure_merge_source_present i msf ml).2
    ∧ (optTruthy (bagGet (getBag i) msf) = true →
        getBag (ensure_merge_source_present i msf ml).2 = getBag i) := by
  constructor
  · exact ensureStep_idem msf ml i
  · intro h
    show getBag (ensureStep msf ml i) = getBag i
    rw [ensureStep_eq, if_pos h, getBag_normalizeInst]

/-- Witness for C6 at a concrete record whose source field is present and
truthy. -/
theorem ensure_merge_source_present_idempotent_witness :
    (ensure_merge_source_present
        (ensure_merge_source_present ⟨some (some [("S", PValue.str "DB1")]), none, none⟩
          "S" "M").2 "S" "M").2
      = (ensure_merge_source_present ⟨some (some [("S", PValue.str "DB1")]), none, none⟩
          "S" "M").2
    ∧ getBag (ensure_merge_source_present
          ⟨some (some [("S", PValue.str "DB1")]), none, none⟩ "S" "M").2
        = getBag (⟨some (some [("S", PValue.str "DB1")]), none, none⟩ : Instance) :=
  ⟨(ensure_merge_source_present_idempotent
      ⟨some (some [("S", PValue.str "DB1")]), none, none⟩ "S" "M").1,
   (ensure_merge_source_present_idempotent
      ⟨some (some [("S", PValue.str "DB1")]), none, none⟩ "S" "M").2 (by decide)⟩

/-- C8: get_properties probes the attributes properties, props, metadata in
that fixed order, uses the first one present, initializes a null value to
an empty bag in place, and when none is present creates an empty bag under
`properties`; as a total function it is deterministic and never fails. -/
theorem get_properties_resolution (i : Instance) :
    (∀ b, i.properties = some (some b) → get_properties i = (b, i))
  ∧ (i.properties = some none →
      get_properties i = ([], { i with properties := some (some []) }))
  ∧ (∀ b, i.properties = none → i.props = some (some b) → get_properties i = (b, i))
  ∧ (i.properties = none → i.props = some none →
      get_properties i = ([], { i with props := some (some []) }))
  ∧ (∀ b, i.properties = none → i.props = none → i.metadata = some (some b) →
      get_properties i = (b, i))
  ∧ (i.properties = none → i.props = none → i.metadata = some none →
      get_properties i = ([], { i with metadata := some (some []) }))
  ∧ (i.properties = none → i.props = none → i.metadata = none →
      get_properties i = ([], { i with properties := some (some []) })) := by
  refine ⟨fun b hb => ?_, fun hb => ?_, fun b h1 h2 => ?_, fun h1 h2 => ?_,
    fun b h1 h2 h3 => ?_, fun h1 h2 h3 => ?_, fun h1 h2 h3 => ?_⟩ <;>
    simp [get_properties, *]

/-- Witness for C8 at a record whose `properties` attribute is present but
null. -/
theorem get_properties_resolution_witness :
    get_properties ⟨some none, none, none⟩
      = ([], (⟨some (some []), none, none⟩ : Instance)) :=
  (get_properties_resolution ⟨some none, none, none⟩).2.1 rfl

/- Synchronization of destination fields (claim C3). -/

/-- A list of observed values is constant. -/
def constList (l : List (Option PValue)) : Prop := ∀ x ∈ l, ∀ y ∈ l, x = y

theorem constList_replicate (n : Nat) (a : Option PValue) :
    constList (List.replicate n a) := by
  intro x hx y hy
  rw [List.eq_of_mem_replicate hx, List.eq_of_mem_replicate hy]

theorem constList_runRules (msf ml : String) (maps : List MergeMapping)
    (insts : List Instance) :
    ∀ m ∈ maps, constList (obs (runRules msf ml maps insts) m.destination) := by
  induction maps generalizing insts with
  | nil => intro m hm; cases hm
  | cons m0 rest ih =>
    intro m hm
    simp only [runRules, List.foldl_cons]
    rcases List.mem_cons.mp hm with rfl | hm2
    · by_cases hd : ∃ m2 ∈ rest, m2.destination = m.destination
      · obtain ⟨m2, hmem, hdd⟩ := hd
        have h2 := ih (applyMapping msf ml insts m) m2 hmem
        rw [hdd] at h2
        exact h2
      · push_neg at hd
        have hpres : obs (runRules msf ml rest (applyMapping msf ml insts m))
            m.destination = obs (applyMapping msf ml insts m) m.destination :=
          obs_runRules_not_dest _ _ _ _ _ fun m2 hm2 he => hd m2 hm2 he.symm
        simp only [runRules] at hpres
        rw [hpres, obs_applyMapping_dest]
        exact constList_replicate _ _
    · exact ih (applyMapping msf ml insts m0) m hm2

/-- C3: for a non-empty validated group and a non-empty mapping list, after
merge_metadata_for_instances every record holds an identical value at each
mapping's destination field. -/
theorem merge_synchronizes_destinations (insts : List Instance)
    (maps : List MergeMapping) (msf flag ml : String)
    (hne : insts ≠ []) (hmne : maps ≠ [])
    (hv : ∃ i ∈ insts, optTruthy (bagGet (getBag i) flag) = true) :
    ∀ m ∈ maps, ∀ i ∈ merge_metadata_for_instances insts maps msf flag ml,
      ∀ j ∈ merge_metadata_for_instances insts maps msf flag ml,
        bagGet (getBag i) m.destination = bagGet (getBag j) m.destination := by
  have hval : (is_validated flag insts).1 = true := by
    rw [is_validated_fst, List.any_eq_true]
    exact hv
  intro m hm i hi j hj
  rw [merge_eq_runRules _ _ _ _ _ hne hval hmne] at hi hj
  exact constList_runRules msf ml maps _ m hm _ (List.mem_map_of_mem _ hi)
    _ (List.mem_map_of_mem _ hj)

/- Congruence of the merged-value computation in the observed source and
label values (used for claims C2, C4, C10). -/

theorem sourceLabel_congr (b1 b2 : Bag) (msf ml : String)
    (h : bagGet b1 msf = bagGet b2 msf) :
    sourceLabel b1 msf ml = sourceLabel b2 msf ml := by
  unfold sourceLabel
  rw [h]

theorem contribsOf_congr (b1 b2 : Bag) (lbl : String) (sources : List String)
    (h : ∀ f ∈ sources, bagGet b1 f = bagGet b2 f) :
    contribsOf b1 lbl sources = contribsOf b2 lbl sources := by
  induction sources with
  | nil => rfl
  | cons f fs ih =>
    simp only [contribsOf]
    rw [h f (List.mem_cons_self _ _), ih fun g hg => h g (List.mem_cons_of_mem _ hg)]

theorem contribList_eq_of_obs (msf ml : String) (m : MergeMapping)
    (t u : List Instance)
    (hs : ∀ f ∈ m.sources, obs t f = obs u f)
    (hmsf : obs t msf = obs u msf) :
    contribList msf ml m t = contribList msf ml m u := by
  induction t generalizing u with
  | nil =>
    cases u with
    | nil => rfl
    | cons j u2 => simp [obs] at hmsf
  | cons i t2 ih =>
    cases u with
    | nil => simp [obs] at hmsf
    | cons j u2 =>
      simp only [obs, List.map_cons] at hmsf hs
      have hmsf1 := (List.cons.inj hmsf).1
      have hmsf2 := (List.cons.inj hmsf).2
      simp only [contribList]
      rw [sourceLabel_congr (getBag i) (getBag j) msf ml hmsf1,
        contribsOf_congr (getBag i) (getBag j) _ _
          fun f hf => (List.cons.inj (hs f hf)).1,
        ih u2 (fun f hf => (List.cons.inj (hs f hf)).2) hmsf2]

theorem mergedValueOf_eq_of_obs (msf ml : String) (m : MergeMapping)
    (t u : List Instance)
    (hs : ∀ f ∈ m.sources, obs t f = obs u f)
    (hmsf : obs t msf = obs u msf) :
    mergedValueOf t m msf ml = mergedValueOf u m msf ml := by
  unfold mergedValueOf
  rw [contribList_eq_of_obs msf ml m t u hs hmsf]

/- The all-falsy case (claim C7): no record contributes. -/

theorem contribsOf_nil_of_falsy (b : Bag) (lbl : String) (sources : List String)
    (h : ∀ f ∈ sources, optTruthy (bagGet b f) = false) :
    contribsOf b lbl sources = [] := by
  induction sources with
  | nil => rfl
  | cons f fs ih =>
    have hf := h f (List.mem_cons_self _ _)
    have htail := ih fun g hg => h g (List.mem_cons_of_mem _ hg)
    simp only [contribsOf]
    cases hb : bagGet b f with
    | none => exact htail
    | some v =>
      rw [hb] at hf
      simp only [optTruthy] at hf
      simp [hf, htail]

theorem contribList_nil_of_falsy (msf ml : String) (m : MergeMapping)
    (t : List Instance)
    (h : ∀ i ∈ t, ∀ f ∈ m.sources, optTruthy (bagGet (getBag i) f) = false) :
    contribList msf ml m t = [] := by
  induction t with
  | nil => rfl
  | cons i t2 ih =>
    simp only [contribList]
    rw [contribsOf_nil_of_falsy _ _ _ (h i (List.mem_cons_self _ _)),
      ih fun j hj => h j (List.mem_cons_of_mem _ hj)]
    rfl

/- Determinism of the rule loop in the observed reads (claim C4). -/

theorem is_validated_fst_obs (flag : String) (l : List Instance) :
    (is_validated flag l).1 = (obs l flag).any optTruthy := by
  rw [is_validated_fst]
  induction l with
  | nil => rfl
  | cons i rest ih =>
    simp only [obs, List.map_cons, List.any_cons] at ih ⊢
    rw [ih]

theorem merge_length (insts : List Instance) (maps : List MergeMapping)
    (msf flag ml : String) :
    (merge_metadata_for_instances insts maps msf flag ml).length = insts.length := by
  cases insts with
  | nil => rfl
  | cons i rest =>
    cases hv : (is_validated flag (i :: rest)).1 with
    | false =>
      rw [merge_eq_of_not_validated _ _ _ _ _ (by simp) hv, is_validated_snd_length]
    | true =>
      cases maps with
      | nil => simp [merge_metadata_for_instances, hv, is_validated_snd_length]
      | cons m ms =>
        rw [merge_eq_runRules _ _ _ _ _ (by simp) hv (by simp), runRules_length]
        rw [List.length_map, is_validated_snd_length]

theorem runRules_obs_dest_eq (msf ml : String) (maps : List MergeMapping)
    (t u : List Instance)
    (hfr1 : ∀ m ∈ maps, ∀ m2 ∈ maps, m.destination ∉ m2.sources)
    (hfr2 : ∀ m ∈ maps, m.destination ≠ msf)
    (hs : ∀ m ∈ maps, ∀ f ∈ m.sources, obs t f = obs u f)
    (hmsf : obs t msf = obs u msf) :
    ∀ m ∈ maps, obs (runRules msf ml maps t) m.destination
        = obs (runRules msf ml maps u) m.destination := by
  induction maps generalizing t u with
  | nil => intro m hm; cases hm
  | cons m0 rest ih =>
    have hlen : t.length = u.length := by
      have hh := congrArg List.length hmsf
      simpa [obs] using hh
    have hmv : mergedValueOf t m0 msf ml = mergedValueOf u m0 msf ml :=
      mergedValueOf_eq_of_obs msf ml m0 t u
        (fun f hf => hs m0 (List.mem_cons_self _ _) f hf) hmsf
    have hs1 : ∀ m ∈ rest, ∀ f ∈ m.sources,
        obs (applyMapping msf ml t m0) f = obs (applyMapping msf ml u m0) f := by
      intro m hm f hf
      have hfne : f ≠ m0.destination := by
        intro he
        exact hfr1 m0 (List.mem_cons_self _ _) m (List.mem_cons_of_mem _ hm) (he ▸ hf)
      rw [obs_applyMapping_ne _ _ _ _ _ hfne, obs_applyMapping_ne _ _ _ _ _ hfne]
      exact hs m (List.mem_cons_of_mem _ hm) f hf
    have hmsf1 : obs (applyMapping msf ml t m0) msf
        = obs (applyMapping msf ml u m0) msf := by
      have hne : msf ≠ m0.destination :=
        fun he => hfr2 m0 (List.mem_cons_self _ _) he.symm
      rw [obs_applyMapping_ne _ _ _ _ _ hne, obs_applyMapping_ne _ _ _ _ _ hne]
      exact hmsf
    have ihrest := ih (applyMapping msf ml t m0) (applyMapping msf ml u m0)
      (fun m hm m2 hm2 =>
        hfr1 m (List.mem_cons_of_mem _ hm) m2 (List.mem_cons_of_mem _ hm2))
      (fun m hm => hfr2 m (List.mem_cons_of_mem _ hm)) hs1 hmsf1
    intro m hm
    simp only [runRules, List.foldl_cons]
    rcases List.mem_cons.mp hm with he | hm2
    · subst he
      by_cases hd : ∃ m2 ∈ rest, m2.destination = m.destination
      · obtain ⟨m2, hmem, hdd⟩ := hd
        have h2 := ihrest m2 hmem
        simp only [runRules] at h2
        rw [hdd] at h2
        exact h2
      · push_neg at hd
        have hp1 : obs (List.foldl (applyMapping msf ml) (applyMapping msf ml t m) rest)
            m.destination = obs (applyMapping msf ml t m) m.destination := by
          have hh := obs_runRules_not_dest msf ml m.destination rest
            (applyMapping msf ml t m) fun m2 hm2 he => hd m2 hm2 he.symm
          simpa [runRules] using hh
        have hp2 : obs (List.foldl (applyMapping msf ml) (applyMapping msf ml u m) rest)
            m.destination = obs (applyMapping msf ml u m) m.destination := by
          have hh := obs_runRules_not_dest msf ml m.destination rest
            (applyMapping msf ml u m) fun m2 hm2 he => hd m2 hm2 he.symm
          simpa [runRules] using hh
        rw [hp1, hp2, obs_applyMapping_dest, obs_applyMapping_dest, hlen, hmv]
    · have h2 := ihrest m hm2
      simpa [runRules] using h2

/-- C4 (amended): running merge_metadata_for_instances twice with the same
arguments leaves each mapping's destination field with the same values as
running it once, provided no mapping's destination occurs among any
mapping's source fields and no mapping's destination equals the
merge-source field. -/
theorem merge_idempotent_of_fresh_destinations (insts : List Instance)
    (maps : List MergeMapping) (msf flag ml : String)
    (hfr1 : ∀ m ∈ maps, ∀ m2 ∈ maps, m.destination ∉ m2.sources)
    (hfr2 : ∀ m ∈ maps, m.destination ≠ msf) :
    ∀ m ∈ maps,
      obs (merge_metadata_for_instances
            (merge_metadata_for_instances insts maps msf flag ml) maps msf flag ml)
          m.destination
        = obs (merge_metadata_for_instances insts maps msf flag ml) m.destination := by
  cases insts with
  | nil => intro m hm; rfl
  | cons i0 rest0 =>
    have hne : (i0 :: rest0 : List Instance) ≠ [] := by simp
    have hlen1 := merge_length (i0 :: rest0) maps msf flag ml
    have hne1 : merge_metadata_for_instances (i0 :: rest0) maps msf flag ml ≠ [] := by
      intro hh
      rw [hh] at hlen1
      simp at hlen1
    cases hv : (is_validated flag (i0 :: rest0)).1 with
    | false =>
      have hout1 := merge_eq_of_not_validated (i0 :: rest0) maps msf flag ml hne hv
      have hobs : ∀ k,
          obs (merge_metadata_for_instances (i0 :: rest0) maps msf flag ml) k
            = obs (i0 :: rest0) k := by
        intro k
        rw [hout1, obs_is_validated]
      have hv2 : (is_validated flag
          (merge_metadata_for_instances (i0 :: rest0) maps msf flag ml)).1 = false := by
        rw [is_validated_fst_obs, hobs, ← is_validated_fst_obs, hv]
      intro m hm
      rw [merge_eq_of_not_validated _ _ _ _ _ hne1 hv2, obs_is_validated]
    | true =>
      cases maps with
      | nil => intro m hm; cases hm
      | cons m0 ms0 =>
        have hmne : (m0 :: ms0 : List MergeMapping) ≠ [] := by simp
        have hout1 := merge_eq_runRules (i0 :: rest0) (m0 :: ms0) msf flag ml hne hv hmne
        have hmsf_ne_dest : ∀ m ∈ (m0 :: ms0), msf ≠ m.destination :=
          fun m hm he => hfr2 m hm he.symm
        have hobs_out1_msf :
            obs (merge_metadata_for_instances (i0 :: rest0) (m0 :: ms0) msf flag ml) msf
              = obs (((is_validated flag (i0 :: rest0)).2).map (ensureStep msf ml)) msf := by
          rw [hout1, obs_runRules_not_dest _ _ _ _ _ hmsf_ne_dest]
        have hens_s2 := obs_map_ensureStep_msf msf ml ((is_validated flag (i0 :: rest0)).2)
        cases hv2 : (is_validated flag
            (merge_metadata_for_instances (i0 :: rest0) (m0 :: ms0) msf flag ml)).1 with
        | false =>
          intro m hm
          rw [merge_eq_of_not_validated _ _ _ _ _ hne1 hv2, obs_is_validated]
        | true =>
          have hout2 := merge_eq_runRules _ (m0 :: ms0) msf flag ml hne1 hv2 hmne
          have hens_o1 : ∀ j ∈ (is_validated flag
              (merge_metadata_for_instances (i0 :: rest0) (m0 :: ms0) msf flag ml)).2,
              ensuredVal (bagGet (getBag j) msf) ml := by
            apply ensured_of_obs_eq msf ml
              (merge_metadata_for_instances (i0 :: rest0) (m0 :: ms0) msf flag ml)
            · exact obs_is_validated flag msf _
            · rw [hobs_out1_msf]
              exact hens_s2
          have hobs_s2' : ∀ k,
              obs (((is_validated flag
                  (merge_metadata_for_instances (i0 :: rest0) (m0 :: ms0) msf flag ml)).2).map
                  (ensureStep msf ml)) k
                = obs (merge_metadata_for_instances (i0 :: rest0) (m0 :: ms0) msf flag ml) k := by
            intro k
            rw [obs_map_ensureStep_of_ensured msf ml k _ hens_o1, obs_is_validated]
          have hs : ∀ m ∈ (m0 :: ms0), ∀ f ∈ m.sources,
              obs (((is_validated flag (i0 :: rest0)).2).map (ensureStep msf ml)) f
                = obs (((is_validated flag
                    (merge_metadata_for_instances (i0 :: rest0) (m0 :: ms0) msf flag ml)).2).map
                    (ensureStep msf ml)) f := by
            intro m hm f hf
            rw [hobs_s2' f, hout1,
              obs_runRules_not_dest _ _ _ _ _ fun m2 hm2 he => hfr1 m2 hm2 m hm (he ▸ hf)]
          have hmsf_agree :
              obs (((is_validated flag (i0 :: rest0)).2).map (ensureStep msf ml)) msf
                = obs (((is_validated flag
                    (merge_metadata_for_instances (i0 :: rest0) (m0 :: ms0) msf flag ml)).2).map
                    (ensureStep msf ml)) msf := by
            rw [hobs_s2' msf, hout1, obs_runRules_not_dest _ _ _ _ _ hmsf_ne_dest]
          have key := runRules_obs_dest_eq msf ml (m0 :: ms0) _ _ hfr1 hfr2 hs hmsf_agree
          intro m hm
          rw [hout2]
          exact ((congrArg (fun l => obs l m.destination) hout1).trans (key m hm)).symm

/-- C4 counterexample: with a rule whose destination is one of its own
source fields, running merge_metadata_for_instances a second time changes
the destination value, so merge is not idempotent for every group, mapping
list and field configuration. -/
theorem merge_not_idempotent_self_source :
    obs (merge_metadata_for_instances
          (merge_metadata_for_instances
            [⟨some (some [("F", PValue.bool true), ("S", PValue.str "DB1"),
                ("X", PValue.str "a")]), none, none⟩,
             ⟨some (some [("S", PValue.str "DB2"), ("X", PValue.str "b")]), none, none⟩]
            [⟨["X"], "X"⟩] "S" "F" "M")
          [⟨["X"], "X"⟩] "S" "F" "M") "X"
      ≠ obs (merge_metadata_for_instances
          [⟨some (some [("F", PValue.bool true), ("S", PValue.str "DB1"),
              ("X", PValue.str "a")]), none, none⟩,
           ⟨some (some [("S", PValue.str "DB2"), ("X", PValue.str "b")]), none, none⟩]
          [⟨["X"], "X"⟩] "S" "F" "M") "X" := by
  decide

/-- Witness for the amended C4 at a concrete validated pair and a rule
whose destination is fresh. -/
theorem merge_idempotent_of_fresh_destinations_witness :
    obs (merge_metadata_for_instances
          (merge_metadata_for_instances
            [⟨some (some [("F", PValue.bool true), ("S", PValue.str "DB1"),
                ("T", PValue.str "a")]), none, none⟩,
             ⟨some (some [("S", PValue.str "DB2"), ("T", PValue.str "b")]), none, none⟩]
            [⟨["T"], "D"⟩] "S" "F" "M")
          [⟨["T"], "D"⟩] "S" "F" "M") "D"
      = obs (merge_metadata_for_instances
          [⟨some (some [("F", PValue.bool true), ("S", PValue.str "DB1"),
              ("T", PValue.str "a")]), none, none⟩,
           ⟨some (some [("S", PValue.str "DB2"), ("T", PValue.str "b")]), none, none⟩]
          [⟨["T"], "D"⟩] "S" "F" "M") "D" :=
  merge_idempotent_of_fresh_destinations
    [⟨some (some [("F", PValue.bool true), ("S", PValue.str "DB1"),
        ("T", PValue.str "a")]), none, none⟩,
     ⟨some (some [("S", PValue.str "DB2"), ("T", PValue.str "b")]), none, none⟩]
    [⟨["T"], "D"⟩] "S" "F" "M" (by decide) (by decide) ⟨["T"], "D"⟩ (by decide)

/- A validated pair of records with truthy source labels, processed by a
single rule with one source field (used for claims C2 and C10). -/

theorem runRules_singleton (msf ml : String) (m : MergeMapping) (l : List Instance) :
    runRules msf ml [m] l = applyMapping msf ml l m := rfl

theorem is_validated_pair (flag : String) (i1 i2 : Instance)
    (hv : optTruthy (bagGet (getBag i1) flag) = true
        ∨ optTruthy (bagGet (getBag i2) flag) = true) :
    (is_validated flag [i1, i2]).1 = true
    ∧ ∃ j1 j2, (is_validated flag [i1, i2]).2 = [j1, j2]
        ∧ getBag j1 = getBag i1 ∧ getBag j2 = getBag i2 := by
  by_cases hb : optTruthy (bagGet (getBag i1) flag) = true
  · exact ⟨by simp [is_validated, hb], normalizeInst i1, i2,
      by simp [is_validated, hb], getBag_normalizeInst i1, rfl⟩
  · have hb2 : optTruthy (bagGet (getBag i2) flag) = true := hv.resolve_left hb
    exact ⟨by simp [is_validated, hb, hb2], normalizeInst i1, normalizeInst i2,
      by simp [is_validated, hb, hb2], getBag_normalizeInst i1, getBag_normalizeInst i2⟩

theorem ensureStep_bag_of_truthy (msf ml : String) (i : Instance)
    (h : optTruthy (bagGet (getBag i) msf) = true) :
    getBag (ensureStep msf ml i) = getBag i := by
  rw [ensureStep_eq, if_pos h, getBag_normalizeInst]

theorem merge_pair_single_rule (i1 i2 : Instance) (f d msf flag ml : String)
    (v1 v2 l1 l2 : PValue)
    (h1 : bagGet (getBag i1) f = some v1) (ht1 : pvTruthy v1 = true)
    (h2 : bagGet (getBag i2) f = some v2) (ht2 : pvTruthy v2 = true)
    (hl1 : bagGet (getBag i1) msf = some l1) (hlt1 : pvTruthy l1 = true)
    (hl2 : bagGet (getBag i2) msf = some l2) (hlt2 : pvTruthy l2 = true)
    (hv : optTruthy (bagGet (getBag i1) flag) = true
        ∨ optTruthy (bagGet (getBag i2) flag) = true) :
    obs (merge_metadata_for_instances [i1, i2] [⟨[f], d⟩] msf flag ml) d
      = List.replicate 2 (some (.str
          (pvToStr v1 ++ " [" ++ pvToStr l1 ++ "]" ++ ";"
            ++ (pvToStr v2 ++ " [" ++ pvToStr l2 ++ "]")))) := by
  obtain ⟨hval, j1, j2, hscan, hg1, hg2⟩ := is_validated_pair flag i1 i2 hv
  rw [merge_eq_runRules _ _ _ _ _ (by simp) hval (by simp), hscan]
  simp only [List.map_cons, List.map_nil, runRules_singleton]
  have he1 : getBag (ensureStep msf ml j1) = getBag i1 := by
    rw [ensureStep_bag_of_truthy msf ml j1 (by rw [hg1, hl1]; simpa [optTruthy]), hg1]
  have he2 : getBag (ensureStep msf ml j2) = getBag i2 := by
    rw [ensureStep_bag_of_truthy msf ml j2 (by rw [hg2, hl2]; simpa [optTruthy]), hg2]
  have hlab1 : sourceLabel (getBag i1) msf ml = pvToStr l1 := by
    unfold sourceLabel
    rw [hl1]
    simp [hlt1]
  have hlab2 : sourceLabel (getBag i2) msf ml = pvToStr l2 := by
    unfold sourceLabel
    rw [hl2]
    simp [hlt2]
  have hc1 : contribsOf (getBag i1) (pvToStr l1) [f]
      = [pvToStr v1 ++ " [" ++ pvToStr l1 ++ "]"] := by
    simp only [contribsOf]
    rw [h1]
    simp [ht1]
  have hc2 : contribsOf (getBag i2) (pvToStr l2) [f]
      = [pvToStr v2 ++ " [" ++ pvToStr l2 ++ "]"] := by
    simp only [contribsOf]
    rw [h2]
    simp [ht2]
  have hmv : mergedValueOf [ensureStep msf ml j1, ensureStep msf ml j2]
      ⟨[f], d⟩ msf ml
      = pvToStr v1 ++ " [" ++ pvToStr l1 ++ "]" ++ ";"
          ++ (pvToStr v2 ++ " [" ++ pvToStr l2 ++ "]") := by
    unfold mergedValueOf
    simp only [contribList, he1, he2, hlab1, hlab2, hc1, hc2]
    rfl
  have hdest := obs_applyMapping_dest msf ml
    [ensureStep msf ml j1, ensureStep msf ml j2] ⟨[f], d⟩
  rw [hmv] at hdest
  exact hdest

/-- C2: a validated pair of records whose source-label field holds DB1 and
DB2 and whose Title fields hold Foo and Bar, merged under the single rule
sources=["Title"], destination="Title-merged", ends with both records
holding "Foo [DB1];Bar [DB2]" at "Title-merged". -/
theorem merge_two_records_composition (i1 i2 : Instance) (msf flag ml : String)
    (h1 : bagGet (getBag i1) "Title" = some (.str "Foo"))
    (h2 : bagGet (getBag i2) "Title" = some (.str "Bar"))
    (hl1 : bagGet (getBag i1) msf = some (.str "DB1"))
    (hl2 : bagGet (getBag i2) msf = some (.str "DB2"))
    (hv : optTruthy (bagGet (getBag i1) flag) = true
        ∨ optTruthy (bagGet (getBag i2) flag) = true) :
    obs (merge_metadata_for_instances [i1, i2] [⟨["Title"], "Title-merged"⟩] msf flag ml)
        "Title-merged"
      = List.replicate 2 (some (.str "Foo [DB1];Bar [DB2]")) :=
  (merge_pair_single_rule i1 i2 "Title" "Title-merged" msf flag ml
    (.str "Foo") (.str "Bar") (.str "DB1") (.str "DB2") h1 (by decide) h2 (by decide)
    hl1 (by decide) hl2 (by decide) hv).trans (by decide)

/-- Witness for C2 at concrete records. -/
theorem merge_two_records_composition_witness :
    obs (merge_metadata_for_instances
          [⟨some (some [("V", PValue.bool true), ("S", PValue.str "DB1"),
              ("Title", PValue.str "Foo")]), none, none⟩,
           ⟨some (some [("S", PValue.str "DB2"), ("Title", PValue.str "Bar")]),
              none, none⟩]
          [⟨["Title"], "Title-merged"⟩] "S" "V" "M") "Title-merged"
      = List.replicate 2 (some (PValue.str "Foo [DB1];Bar [DB2]")) :=
  merge_two_records_composition
    ⟨some (some [("V", PValue.bool true), ("S", PValue.str "DB1"),
        ("Title", PValue.str "Foo")]), none, none⟩
    ⟨some (some [("S", PValue.str "DB2"), ("Title", PValue.str "Bar")]), none, none⟩
    "S" "V" "M" (by decide) (by decide) (by decide) (by decide) (Or.inl (by decide))

/-- C10: within a single rule, every source value is read before any
destination write happens; a rule whose destination field is one of its own
source fields therefore composes its merged value from the values present
before the rule executed. -/
theorem merge_self_destination_reads_pre_state (i1 i2 : Instance)
    (f msf flag ml : String) (v1 v2 l1 l2 : PValue)
    (h1 : bagGet (getBag i1) f = some v1) (ht1 : pvTruthy v1 = true)
    (h2 : bagGet (getBag i2) f = some v2) (ht2 : pvTruthy v2 = true)
    (hl1 : bagGet (getBag i1) msf = some l1) (hlt1 : pvTruthy l1 = true)
    (hl2 : bagGet (getBag i2) msf = some l2) (hlt2 : pvTruthy l2 = true)
    (hv : optTruthy (bagGet (getBag i1) flag) = true
        ∨ optTruthy (bagGet (getBag i2) flag) = true) :
    obs (merge_metadata_for_instances [i1, i2] [⟨[f], f⟩] msf flag ml) f
      = List.replicate 2 (some (.str
          (pvToStr v1 ++ " [" ++ pvToStr l1 ++ "]" ++ ";"
            ++ (pvToStr v2 ++ " [" ++ pvToStr l2 ++ "]")))) :=
  merge_pair_single_rule i1 i2 f f msf flag ml v1 v2 l1 l2
    h1 ht1 h2 ht2 hl1 hlt1 hl2 hlt2 hv

/- Empty contributions (claim C7). -/

theorem runRules_append (msf ml : String) (a b : List MergeMapping)
    (l : List Instance) :
    runRules msf ml (a ++ b) l = runRules msf ml b (runRules msf ml a l) := by
  simp [runRules, List.foldl_append]

theorem runRules_cons (msf ml : String) (m : MergeMapping) (b : List MergeMapping)
    (l : List Instance) :
    runRules msf ml (m :: b) l = runRules msf ml b (applyMapping msf ml l m) := rfl

/-- C7 counterexample: with two rules sharing a destination, a rule none of
whose source fields is truthy on any record does not leave the destination
holding the empty string — the later rule overwrites it. -/
theorem empty_contribution_overwritten_by_later_rule :
    obs (merge_metadata_for_instances
          [⟨some (some [("F", PValue.bool true), ("B", PValue.str "b")]), none, none⟩]
          [⟨["A"], "D"⟩, ⟨["B"], "D"⟩] "S" "F" "M") "D"
      ≠ List.replicate 1 (some (PValue.str "")) := by
  decide

/-- C7 (amended): for a validated non-empty group and a rule list split as
ms1 ++ m :: ms2, if no record has a truthy value at any of m's source
fields, the merge-source field is not among m's sources, no earlier rule
writes into m's sources, and no later rule shares m's destination, then the
merge leaves the empty string at m's destination on every record. -/
theorem merge_blank_destination_when_no_contribution (insts : List Instance)
    (ms1 ms2 : List MergeMapping) (m : MergeMapping) (msf flag ml : String)
    (hne : insts ≠ [])
    (hval : ∃ i ∈ insts, optTruthy (bagGet (getBag i) flag) = true)
    (hsrc : ∀ i ∈ insts, ∀ f ∈ m.sources, optTruthy (bagGet (getBag i) f) = false)
    (hmsf : msf ∉ m.sources)
    (hpre : ∀ m2 ∈ ms1, m2.destination ∉ m.sources)
    (hpost : ∀ m2 ∈ ms2, m2.destination ≠ m.destination) :
    obs (merge_metadata_for_instances insts (ms1 ++ m :: ms2) msf flag ml)
        m.destination
      = List.replicate insts.length (some (.str "")) := by
  have hval1 : (is_validated flag insts).1 = true := by
    rw [is_validated_fst, List.any_eq_true]
    exact hval
  have hmne : ms1 ++ m :: ms2 ≠ [] := by simp
  rw [merge_eq_runRules _ _ _ _ _ hne hval1 hmne, runRules_append, runRules_cons,
    obs_runRules_not_dest _ _ _ _ _ fun m2 hm2 he => hpost m2 hm2 he.symm,
    obs_applyMapping_dest]
  have hTlen : (runRules msf ml ms1
      (((is_validated flag insts).2).map (ensureStep msf ml))).length
      = insts.length := by
    rw [runRules_length, List.length_map, is_validated_snd_length]
  have hobsT : ∀ f ∈ m.sources,
      obs (runRules msf ml ms1
          (((is_validated flag insts).2).map (ensureStep msf ml))) f
        = obs insts f := by
    intro f hf
    rw [obs_runRules_not_dest _ _ _ _ _ fun m2 hm2 he => hpre m2 hm2 (he ▸ hf),
      obs_map_ensureStep_ne _ _ _ _ fun he => hmsf (by rw [he] at hf; exact hf),
      obs_is_validated]
  have hfalsyT : ∀ i ∈ runRules msf ml ms1
      (((is_validated flag insts).2).map (ensureStep msf ml)),
      ∀ f ∈ m.sources, optTruthy (bagGet (getBag i) f) = false := by
    intro i hi f hf
    have hx : bagGet (getBag i) f ∈ obs insts f := by
      rw [← hobsT f hf]
      exact List.mem_map_of_mem _ hi
    obtain ⟨j, hj, hji⟩ := List.mem_map.mp hx
    rw [← hji]
    exact hsrc j hj f hf
  have hmv : mergedValueOf (runRules msf ml ms1
      (((is_validated flag insts).2).map (ensureStep msf ml))) m msf ml = "" := by
    unfold mergedValueOf
    rw [contribList_nil_of_falsy _ _ _ _ hfalsyT]
    rfl
  rw [hmv, hTlen]

/-- Witness for the amended C7 at a concrete validated record with no
truthy source value. -/
theorem merge_blank_destination_when_no_contribution_witness :
    obs (merge_metadata_for_instances
          [⟨some (some [("F", PValue.bool true), ("B", PValue.str "b")]), none, none⟩]
          ([] ++ (⟨["A"], "D"⟩ : MergeMapping) :: []) "S" "F" "M")
        (⟨["A"], "D"⟩ : MergeMapping).destination
      = List.replicate
          [(⟨some (some [("F", PValue.bool true), ("B", PValue.str "b")]),
              none, none⟩ : Instance)].length
          (some (PValue.str "")) :=
  merge_blank_destination_when_no_contribution
    [⟨some (some [("F", PValue.bool true), ("B", PValue.str "b")]), none, none⟩]
    [] [] ⟨["A"], "D"⟩ "S" "F" "M" (by decide) (by decide) (by decide) (by decide)
    (by decide) (by decide)

/-- Witness for C3 at a concrete validated pair: both output records agree
at the destination field. -/
theorem merge_synchronizes_destinations_witness :
    bagGet (getBag (⟨some (some [("F", PValue.bool true), ("S", PValue.str "DB1"),
        ("T", PValue.str "a"), ("D", PValue.str "a [DB1];b [DB2]")]),
        none, none⟩ : Instance)) "D"
      = bagGet (getBag (⟨some (some [("S", PValue.str "DB2"), ("T", PValue.str "b"),
          ("D", PValue.str "a [DB1];b [DB2]")]), none, none⟩ : Instance)) "D" :=
  merge_synchronizes_destinations
    [⟨some (some [("F", PValue.bool true), ("S", PValue.str "DB1"),
        ("T", PValue.str "a")]), none, none⟩,
     ⟨some (some [("S", PValue.str "DB2"), ("T", PValue.str "b")]), none, none⟩]
    [⟨["T"], "D"⟩] "S" "F" "M" (by decide) (by decide)
    ⟨⟨some (some [("F", PValue.bool true), ("S", PValue.str "DB1"),
        ("T", PValue.str "a")]), none, none⟩, by decide, by decide⟩
    ⟨["T"], "D"⟩ (by decide)
    ⟨some (some [("F", PValue.bool true), ("S", PValue.str "DB1"),
        ("T", PValue.str "a"), ("D", PValue.str "a [DB1];b [DB2]")]), none, none⟩
    (by decide)
    ⟨some (some [("S", PValue.str "DB2"), ("T", PValue.str "b"),
        ("D", PValue.str "a [DB1];b [DB2]")]), none, none⟩
    (by decide)

/-- Witness for C10 at concrete records with the self-referential rule
sources=["X"], destination="X". -/
theorem merge_self_destination_reads_pre_state_witness :
    obs (merge_metadata_for_instances
          [⟨some (some [("F", PValue.bool true), ("S", PValue.str "DB1"),
              ("X", PValue.str "a")]), none, none⟩,
           ⟨some (some [("S", PValue.str "DB2"), ("X", PValue.str "b")]), none, none⟩]
          [⟨["X"], "X"⟩] "S" "F" "M") "X"
      = List.replicate 2 (some (PValue.str
          ("a" ++ " [" ++ "DB1" ++ "]" ++ ";" ++ ("b" ++ " [" ++ "DB2" ++ "]")))) :=
  merge_self_destination_reads_pre_state
    ⟨some (some [("F", PValue.bool true), ("S", PValue.str "DB1"),
        ("X", PValue.str "a")]), none, none⟩
    ⟨some (some [("S", PValue.str "DB2"), ("X", PValue.str "b")]), none, none⟩
    "X" "S" "F" "M" (.str "a") (.str "b") (.str "DB1") (.str "DB2")
    (by decide) (by decide) (by decide) (by decide) (by decide) (by decide)
    (by decide) (by decide) (Or.inl (by decide))

/- Mapping-rule deduplication (claim C5). -/

theorem dedupMappings_sublist (seen : List (List String × String))
    (ms : List MergeMapping) : (dedupMappings seen ms).Sublist ms := by
  induction ms generalizing seen with
  | nil => simp [dedupMappings]
  | cons m rest ih =>
    simp only [dedupMappings]
    by_cases h : ruleKey m ∈ seen
    · rw [if_pos h]
      exact (ih seen).cons m
    · rw [if_neg h]
      exact (ih _).cons₂ m

theorem dedupMappings_nodup_keys (seen : List (List String × String))
    (ms : List MergeMapping) :
    ((dedupMappings seen ms).map ruleKey).Nodup
    ∧ ∀ k ∈ seen, k ∉ (dedupMappings seen ms).map ruleKey := by
  induction ms generalizing seen with
  | nil => exact ⟨List.nodup_nil, by simp [dedupMappings]⟩
  | cons m rest ih =>
    by_cases h : ruleKey m ∈ seen
    · simp only [dedupMappings, if_pos h]
      exact ih seen
    · simp only [dedupMappings, if_neg h]
      obtain ⟨hnd, hns⟩ := ih (ruleKey m :: seen)
      refine ⟨?_, ?_⟩
      · simp only [List.map_cons, List.nodup_cons]
        exact ⟨hns (ruleKey m) (List.mem_cons_self _ _), hnd⟩
      · intro k hk
        simp only [List.map_cons, List.mem_cons]
        rintro (he | hmem)
        · exact h (he ▸ hk)
        · exact hns k (List.mem_cons_of_mem _ hk) hmem

theorem dedupMappings_covers (seen : List (List String × String))
    (ms : List MergeMapping) :
    ∀ m ∈ ms, ruleKey m ∈ seen ∨ ruleKey m ∈ (dedupMappings seen ms).map ruleKey := by
  induction ms generalizing seen with
  | nil => intro m hm; cases hm
  | cons m0 rest ih =>
    intro m hm
    rcases List.mem_cons.mp hm with he | hm2
    · subst he
      by_cases h : ruleKey m ∈ seen
      · exact Or.inl h
      · right
        simp [dedupMappings, if_neg h]
    · by_cases h : ruleKey m0 ∈ seen
      · simpa [dedupMappings, if_pos h] using ih seen m hm2
      · rcases ih (ruleKey m0 :: seen) m hm2 with hseen | hdedup
        · rcases List.mem_cons.mp hseen with he2 | hseen2
          · right
            simp [dedupMappings, if_neg h, he2]
          · exact Or.inl hseen2
        · right
          simp only [dedupMappings, if_neg h, List.map_cons, List.mem_cons]
          exact Or.inr hdedup

/-- C5 counterexample: the rule list built by the plugin's initialization
path keeps later duplicates — deduplication does not apply on that path, so
it does not hold for every path that builds the rule list. -/
theorem init_path_keeps_duplicates :
    initMappings [⟨["A"], "X"⟩, ⟨["B"], "Y"⟩, ⟨["A"], "X"⟩] []
        = [⟨["A"], "X"⟩, ⟨["B"], "Y"⟩, ⟨["A"], "X"⟩]
    ∧ canonicalMappings [⟨["A"], "X"⟩, ⟨["B"], "Y"⟩, ⟨["A"], "X"⟩] []
        = [⟨["A"], "X"⟩, ⟨["B"], "Y"⟩]
    ∧ initMappings [⟨["A"], "X"⟩, ⟨["B"], "Y"⟩, ⟨["A"], "X"⟩] []
        ≠ canonicalMappings [⟨["A"], "X"⟩, ⟨["B"], "Y"⟩, ⟨["A"], "X"⟩] [] := by
  decide

/-- C5 (amended): the configuration-update operation deduplicates by the
(sources, destination) key — the spec example canonicalizes as stated, the
canonical list is an order-preserving sublist of the input with pairwise
distinct keys covering every input key — while the initialization path only
concatenates parsed and slot rules without a dedup step (with the default
startup parameters it builds the empty rule list). -/
theorem update_params_dedup_stable :
    canonicalMappings [⟨["A"], "X"⟩, ⟨["B"], "Y"⟩, ⟨["A"], "X"⟩] []
        = [⟨["A"], "X"⟩, ⟨["B"], "Y"⟩]
    ∧ (∀ ms : List MergeMapping, (dedupMappings [] ms).Sublist ms)
    ∧ (∀ ms : List MergeMapping, ((dedupMappings [] ms).map ruleKey).Nodup)
    ∧ (∀ ms : List MergeMapping, ∀ m ∈ ms,
        ruleKey m ∈ (dedupMappings [] ms).map ruleKey)
    ∧ initMappings [] (List.replicate 25 ("", "")) = [] := by
  refine ⟨by decide, fun ms => dedupMappings_sublist [] ms,
    fun ms => (dedupMappings_nodup_keys [] ms).1, fun ms m hm => ?_, by decide⟩
  rcases dedupMappings_covers [] ms m hm with h | h
  · simp at h
  · exact h

/-- Witness for the amended C5 at the spec's example list. -/
theorem update_params_dedup_stable_witness :
    ruleKey ⟨["A"], "X"⟩
      ∈ (dedupMappings [] [⟨["A"], "X"⟩, ⟨["B"], "Y"⟩, ⟨["A"], "X"⟩]).map ruleKey :=
  update_params_dedup_stable.2.2.2.1 [⟨["A"], "X"⟩, ⟨["B"], "Y"⟩, ⟨["A"], "X"⟩]
    ⟨["A"], "X"⟩ (by decide)

/- Slot write-back (claim C9). -/

theorem slotsOut_general (n : Nat) (cs : List MergeMapping) :
    (List.range n).map (fun j => match cs[j]? with
      | some m => slotOfRule m
      | none => ("", ""))
      = (cs.take n).map slotOfRule ++ List.replicate (n - cs.length) ("", "") := by
  induction n with
  | zero => simp
  | succ n ih =>
    rw [List.range_succ, List.map_append, ih]
    by_cases h : n < cs.length
    · have h1 : n + 1 - cs.length = 0 := by omega
      have h2 : n - cs.length = 0 := by omega
      rw [List.take_succ, List.getElem?_eq_getElem h]
      simp [h1, h2, List.getElem?_eq_getElem h]
      rw [List.take_succ, List.getElem?_eq_getElem (by simpa using h)]
      simp
    · push_neg at h
      have hnone : cs[n]? = none := List.getElem?_eq_none h
      have htk : cs.take n = cs := List.take_of_length_le h
      have htk2 : cs.take (n + 1) = cs := List.take_of_length_le (le_trans h (Nat.le_succ n))
      rw [htk, htk2, Nat.succ_sub h, List.replicate_succ']
      simp [hnone]

/-- C9: after canonicalization, update_params fills the 25 per-slot fields
with exactly the first min(n, 25) canonical rules (sources comma-joined,
destination verbatim), clears every remaining slot to empty strings, and
re-serializes all n canonical rules — beyond 25 they survive only in the
serialized representation. -/
theorem update_params_slots_and_serialization (cs : List MergeMapping) :
    slotsOut cs = (cs.take 25).map slotOfRule
        ++ List.replicate (25 - cs.length) ("", "")
    ∧ (slotsOut cs).length = 25
    ∧ (serializedMappings cs).length = cs.length
    ∧ ∀ m ∈ cs, (m.sources, m.destination) ∈ serializedMappings cs := by
  refine ⟨slotsOut_general 25 cs, ?_, ?_, ?_⟩
  · simp [slotsOut]
  · simp [serializedMappings]
  · intro m hm
    exact List.mem_map_of_mem _ hm

/-- Witness for C9 at a concrete two-rule canonical list. -/
theorem update_params_slots_and_serialization_witness :
    ((⟨["A", "B"], "X"⟩ : MergeMapping).sources,
        (⟨["A", "B"], "X"⟩ : MergeMapping).destination)
      ∈ serializedMappings [⟨["A", "B"], "X"⟩, ⟨["C"], "Y"⟩] :=
  (update_params_slots_and_serialization [⟨["A", "B"], "X"⟩, ⟨["C"], "Y"⟩]).2.2.2
    ⟨["A", "B"], "X"⟩ (by decide)
